import Mathlib

/-!
Verification of the YOLOv4 decode / graph-assembly core
(`py_src/yolov4/tf/model.py` and `py_src/yolov4/tflite/__init__.py`).

Tensors are modelled as nested lists of rationals: a `Chan` is the channel
vector at one spatial position (the last tensor axis), an `Image` is the
`height × width` grid of channel vectors (one batch element), and a batch is a
list of images.  The external activation functions `keras.activations.sigmoid`
and `tf.math.exp` are opaque library calls in the source, so here they are
parameters `σ ε : ℚ → ℚ` of the decode; claims that depend on properties of
the real functions (boundedness of sigmoid, injectivity of exp) take those
properties as hypotheses.  Fallible tensor ops (`tf.split` on a non-divisible
axis, Python list indexing, `np.reshape`) return `Option`.
-/

/-- Channel vector at one spatial position (the last tensor axis). -/
abbrev Chan := List ℚ

/-- One batch element: `height × width` grid of channel vectors. -/
abbrev Image := List (List Chan)

/-- Chunk `k` of `tf.split(c, n, axis=-1)` applied to one channel vector:
equal parts of size `c.length / n`. -/
def chunkAt (n k : ℕ) (c : Chan) : Chan :=
  (c.drop (k * (c.length / n))).take (c.length / n)

/-- Ordered concatenation of the images of `f` over a list, mirroring how the
decoder concatenates per-anchor (and per-cell) blocks along the box axis. -/
def flatMapL (f : α → List β) : List α → List β
  | [] => []
  | a :: as => f a ++ flatMapL f as

/-- Broadcast multiplication of a length-2 channel slice by a `(w, h)` pair
(TF broadcasting of a 2-tuple against the last axis). -/
def pairMul (p : ℚ × ℚ) (v : List ℚ) : List ℚ :=
  List.zipWith (fun a b => a * b) v [p.1, p.2]

/-- Broadcast addition of a `(w, h)` pair to a length-2 channel slice. -/
def pairAdd (p : ℚ × ℚ) (v : List ℚ) : List ℚ :=
  List.zipWith (fun a b => a + b) v [p.1, p.2]

/-- The `scale_x_y` grid-sensitivity branch of `YOLOv3Head.call`:
`if self._scale_x_y != 1.0: xy = (xy - 0.5) * self._scale_x_y + 0.5`. -/
def gridCorrect (s : ℚ) (xy : List ℚ) : List ℚ :=
  if s ≠ 1 then xy.map (fun t => (t - 1/2) * s + 1/2) else xy

/-- Per-head immutable state set by `YOLOv3Head.__init__`: the masked anchor
list, `scale_x_y`, and the inverse image dimensions `(1/width, 1/height)`. -/
structure HeadState where
  anchors : List (ℚ × ℚ)
  scaleXY : ℚ
  invImageWH : ℚ × ℚ
  deriving DecidableEq, Repr

/-- `YOLOv3Head.__init__`: select anchors from the global table by mask
(Python raises `IndexError` at construction if a mask index is out of range,
modelled as `none`); store `scale_x_y` and `(1/width, 1/height)`. -/
def headInit (table : List (ℚ × ℚ)) (mask : List ℕ) (width height s : ℚ) :
    Option HeadState :=
  if mask.all (fun m => m < table.length) then
    some ⟨mask.map (fun m => table.getD m (0, 0)), s, (1/width, 1/height)⟩
  else none

/-- The grid coordinate table of `YOLOv3Head.build`:
`grid_coord[y][x] = (x / grid_width, y / grid_height)`. -/
def gridCoords (gridHeight gridWidth : ℕ) : List (List (ℚ × ℚ)) :=
  (List.range gridHeight).map (fun y : ℕ =>
    (List.range gridWidth).map (fun x : ℕ =>
      ((x : ℚ) / (gridWidth : ℚ), (y : ℚ) / (gridHeight : ℚ))))

/-- Geometry computed by `YOLOv3Head.build` from the input grid shape. -/
structure HeadGeom where
  gridCoord : List (List (ℚ × ℚ))
  invGridWH : ℚ × ℚ
  returnShape : ℕ × ℕ
  deriving DecidableEq, Repr

/-- `YOLOv3Head.build`: grid coordinate table, `(1/grid_width, 1/grid_height)`,
and the reshape target `(grid_height * grid_width, filters // 3)` (the
leading `-1` batch wildcard is left implicit). -/
def headBuild (gridHeight gridWidth filters : ℕ) : HeadGeom :=
  ⟨gridCoords gridHeight gridWidth,
   (1 / (gridWidth : ℚ), 1 / (gridHeight : ℚ)),
   (gridHeight * gridWidth, filters / 3)⟩

/-- The body of the anchor loop of `YOLOv3Head.call` at one grid cell with
coordinate `coord`, for anchor slot `i`, on raw channel vector `c`:
`xy` and `oc` are cut from the sigmoid-activated tensor (`sig_split[i]`),
`wh` is cut from the raw tensor (`raw_split[i]`) and passed through `exp`,
then the `scale_x_y` branch, grid normalization, coordinate offset, and anchor
and image scaling are applied, and `[xy, wh, oc]` is concatenated. -/
def boxOf (σ ε : ℚ → ℚ) (anchors : List (ℚ × ℚ)) (s : ℚ)
    (invImg invGrid coord : ℚ × ℚ) (i : ℕ) (c : Chan) : Chan :=
  let sigc := chunkAt 3 i (c.map σ)
  let rawc := chunkAt 3 i c
  let xy0 := sigc.take 2
  let oc := sigc.drop 4
  let wh0 := ((rawc.drop 2).take 2).map ε
  let xy1 := pairAdd coord (pairMul invGrid (gridCorrect s xy0))
  let wh1 := pairMul invImg (pairMul (anchors.getD i (0, 0)) wh0)
  xy1 ++ wh1 ++ oc

/-- Shape check for an `Image`: every row has `W` positions and every position
has `C` channels (tensor regularity, which TF guarantees by construction). -/
def imageWF (x : Image) (W C : ℕ) : Bool :=
  x.all (fun row => row.length = W && row.all (fun c => c.length = C))

/-- `YOLOv3Head.build` followed by `YOLOv3Head.call` on one batch element
(Keras builds from the first input's shape, then calls).  Fails (`none`) when
`tf.split(x, 3)` has a non-divisible channel count, when
`tf.split(..., [2, 2, -1])` has fewer than 4 channels per anchor, or when
`self._anchors[i]` indexing runs past the anchor list (fewer than 3 anchors).
The three per-anchor `(grid_height*grid_width, C/3)` blocks are concatenated
along the box axis, each block enumerating cells in row-major order
(`tf.reshape` of the `(H, W, C/3)` block). -/
def headForward (σ ε : ℚ → ℚ) (st : HeadState) (x : Image) : Option (List Chan) :=
  let H := x.length
  let W := (x.headD []).length
  let C := ((x.headD []).headD []).length
  let g := headBuild H W C
  if imageWF x W C = true ∧ C % 3 = 0 ∧ 4 ≤ C / 3 ∧ 3 ≤ st.anchors.length then
    some (flatMapL (fun i =>
      flatMapL (fun rc =>
        (List.zip rc.1 rc.2).map (fun cc =>
          boxOf σ ε st.anchors st.scaleXY st.invImageWH g.invGridWH cc.2 i cc.1))
        (List.zip x g.gridCoord))
      (List.range 3))
  else none

/-- Batched head decode: the head applies the same per-element computation to
every batch element. -/
def headForwardB (σ ε : ℚ → ℚ) (st : HeadState) (xs : List Image) :
    Option (List (List Chan)) :=
  xs.mapM (headForward σ ε st)

/-- `tf.split(x, n, axis=-1)` on one channel vector: `n` equal chunks; TF
raises when the axis length is not divisible by `n`. -/
def tfSplit (n : ℕ) (c : Chan) : Option (List Chan) :=
  if 0 < n ∧ c.length % n = 0 then
    some ((List.range n).map (fun k => chunkAt n k c))
  else none

/-- `_split_and_get(groups, group_id)` applied along the channel axis at one
spatial position: `tf.split(x, groups, axis=-1)[group_id]`. -/
def splitAndGet (groups gid : ℕ) (c : Chan) : Option Chan :=
  (tfSplit groups c).bind (fun parts => parts[gid]?)

/-- `_split_and_get` lifted to a whole image: `tf.split` on `axis=-1` acts
independently at every spatial position. -/
def imageSplitAndGet (groups gid : ℕ) (x : Image) : Option Image :=
  x.mapM (fun row => row.mapM (splitAndGet groups gid))

/-- Python list indexing `output[index]`, where a negative index counts from
the end and out-of-range raises. -/
def pyGet (l : List α) (i : ℤ) : Option α :=
  let j : ℤ := if i < 0 then (l.length : ℤ) + i else i
  if 0 ≤ j then l[j.toNat]? else none

/-- `keras.layers.Concatenate(axis=-1)` on two images: positionwise channel
concatenation. -/
def concat2 (a b : Image) : Image :=
  List.zipWith (fun ra rb => List.zipWith (fun ca cb => ca ++ cb) ra rb) a b

/-- `keras.layers.Concatenate(axis=-1)` on a list of images, in listed order. -/
def concatChannels : List Image → Image
  | [] => []
  | [a] => a
  | a :: rest => concat2 a (concatChannels rest)

/-- The `route` descriptor as consumed by `YOLOv4Model.call`: an optional
`(groups, group_id)` pair and the `layers` source-index list. -/
structure RouteOption where
  groups : Option (ℕ × ℕ)
  layers : List ℤ
  deriving DecidableEq, Repr

/-- The `route` dispatch of `YOLOv4Model.call` (lines 116–129): with `groups`,
apply `_split_and_get` to `output[layers[0]]`; without `groups`, pass through a
single source or concatenate all listed sources along the channel axis. -/
def routeStep (opt : RouteOption) (output : List Image) : Option Image :=
  match opt.groups with
  | some gg =>
    match opt.layers with
    | [] => none
    | index :: _ => (pyGet output index).bind (imageSplitAndGet gg.1 gg.2)
  | none =>
    match opt.layers with
    | [] => none
    | [index] => pyGet output index
    | is => (is.mapM (pyGet output)).map concatChannels

/-- Row-major flattening of one batch element, as `np.reshape` sees it. -/
def flattenImage (t : Image) : List ℚ :=
  flatMapL id (flatMapL id t)

/-- Cut a flat buffer into `rows` consecutive chunks of `m` entries. -/
def chunkN (rows m : ℕ) (l : List ℚ) : List Chan :=
  match rows with
  | 0 => []
  | r + 1 => l.take m :: chunkN r m (l.drop m)

/-- `np.reshape(a, (1, rows, -1))`: the wildcard axis must divide evenly, else
NumPy raises; otherwise the buffer is cut row-major into `rows` rows (the
leading batch-1 axis is left implicit). -/
def npReshapeRows (rows : ℕ) (flat : List ℚ) : Option (List Chan) :=
  if 0 < rows ∧ flat.length % rows = 0 then
    some (chunkN rows (flat.length / rows) flat)
  else none

/-- One output tensor of the tflite `predict` (shape `(1, H, W, C)`, batch
element `candidate[0]` given as an `Image`): `grid_size = candidate.shape[1]`
and `np.reshape(candidate[0], (1, grid_size * grid_size * 3, -1))`. -/
def tflitePerScale (t : Image) : Option (List Chan) :=
  npReshapeRows (t.length * t.length * 3) (flattenImage t)

/-- The reshape-then-concatenate step of the tflite `predict`: every output
tensor is reshaped per scale and the results are concatenated along the
box-index axis (`np.concatenate(_candidates, axis=1)`), in output order. -/
def tflitePredictCat (ts : List Image) : Option (List Chan) :=
  (ts.mapM tflitePerScale).map (flatMapL id)

/-- Modelled from the spec (§4.2, step 2): the conflated single-split decode
variant that splits the raw tensor once and activates after splitting — the
whole per-anchor chunk gets sigmoid, and `wh` is `exp` of the
already-sigmoid-activated values.  Defined only for comparison with `boxOf`. -/
def boxOfSingleSplit (σ ε : ℚ → ℚ) (anchors : List (ℚ × ℚ)) (s : ℚ)
    (invImg invGrid coord : ℚ × ℚ) (i : ℕ) (c : Chan) : Chan :=
  let sigc := (chunkAt 3 i c).map σ
  let xy0 := sigc.take 2
  let oc := sigc.drop 4
  let wh0 := ((sigc.drop 2).take 2).map ε
  let xy1 := pairAdd coord (pairMul invGrid (gridCorrect s xy0))
  let wh1 := pairMul invImg (pairMul (anchors.getD i (0, 0)) wh0)
  xy1 ++ wh1 ++ oc

/-- The head decode built on the conflated single-split variant
`boxOfSingleSplit`, with the same shape guards as `headForward`. -/
def headForwardSingleSplit (σ ε : ℚ → ℚ) (st : HeadState) (x : Image) :
    Option (List Chan) :=
  let H := x.length
  let W := (x.headD []).length
  let C := ((x.headD []).headD []).length
  let g := headBuild H W C
  if imageWF x W C = true ∧ C % 3 = 0 ∧ 4 ≤ C / 3 ∧ 3 ≤ st.anchors.length then
    some (flatMapL (fun i =>
      flatMapL (fun rc =>
        (List.zip rc.1 rc.2).map (fun cc =>
          boxOfSingleSplit σ ε st.anchors st.scaleXY st.invImageWH g.invGridWH
            cc.2 i cc.1))
        (List.zip x g.gridCoord))
      (List.range 3))
  else none

/-- The `scale_x_y` correction applied unconditionally (the branch forcibly
evaluated as `(xy - 0.5) * scale + 0.5`, even when `scale = 1`). -/
def gridCorrectForced (s : ℚ) (xy : List ℚ) : List ℚ :=
  xy.map (fun t => (t - 1/2) * s + 1/2)

/-- `boxOf` with the `scale_x_y` branch forcibly evaluated. -/
def boxOfForced (σ ε : ℚ → ℚ) (anchors : List (ℚ × ℚ)) (s : ℚ)
    (invImg invGrid coord : ℚ × ℚ) (i : ℕ) (c : Chan) : Chan :=
  let sigc := chunkAt 3 i (c.map σ)
  let rawc := chunkAt 3 i c
  let xy0 := sigc.take 2
  let oc := sigc.drop 4
  let wh0 := ((rawc.drop 2).take 2).map ε
  let xy1 := pairAdd coord (pairMul invGrid (gridCorrectForced s xy0))
  let wh1 := pairMul invImg (pairMul (anchors.getD i (0, 0)) wh0)
  xy1 ++ wh1 ++ oc

/-- The head decode with the `scale_x_y` branch forcibly evaluated, with the
same shape guards as `headForward`. -/
def headForwardForced (σ ε : ℚ → ℚ) (st : HeadState) (x : Image) :
    Option (List Chan) :=
  let H := x.length
  let W := (x.headD []).length
  let C := ((x.headD []).headD []).length
  let g := headBuild H W C
  if imageWF x W C = true ∧ C % 3 = 0 ∧ 4 ≤ C / 3 ∧ 3 ≤ st.anchors.length then
    some (flatMapL (fun i =>
      flatMapL (fun rc =>
        (List.zip rc.1 rc.2).map (fun cc =>
          boxOfForced σ ε st.anchors st.scaleXY st.invImageWH g.invGridWH
            cc.2 i cc.1))
        (List.zip x g.gridCoord))
      (List.range 3))
  else none

/-- Raw channel value `k` of anchor chunk `i` at one spatial position
(`raw_split[i][k]` before any activation). -/
def rawAt (c : Chan) (i k : ℕ) : ℚ :=
  c.getD (i * (c.length / 3) + k) 0

/-- Pointwise form of the `scale_x_y` branch. -/
def gcF (s t : ℚ) : ℚ :=
  if s ≠ 1 then (t - 1/2) * s + 1/2 else t

/-- The channel vector of grid cell `(y, w)` of an image. -/
def cellAt (x : Image) (y w : ℕ) : Chan :=
  (x.getD y []).getD w []

/-- Constant-zero test image of shape `H × W × C`. -/
def zeroImage (H W C : ℕ) : Image :=
  List.replicate H (List.replicate W (List.replicate C (0 : ℚ)))

/-- The first-scale YOLOv4 head for a 416×416 image with `scale_x_y = 1`:
anchors (10,13), (16,30), (33,23). -/
def stdHead : HeadState :=
  ⟨[(10, 13), (16, 30), (33, 23)], 1, (1/416, 1/416)⟩

/-- A bounded stand-in activation (constantly 1/2, the value of the real
sigmoid at 0), used to instantiate witnesses. -/
def halfSig : ℚ → ℚ := fun _ => 1/2

/-- The concrete `2×2×255` all-zero raw tensor of the C2 end-to-end
scenario. -/
def c2Input : Image := zeroImage 2 2 255

/-- The decoded output of the C2 scenario under the constant-1/2 stand-in
sigmoid and identity exp. -/
def c2Out : List Chan := (headForward halfSig id stdHead c2Input).getD []

theorem gridCorrect_eq_map (s : ℚ) (v : List ℚ) :
    gridCorrect s v = v.map (gcF s) := by
  unfold gridCorrect gcF
  by_cases h : s ≠ 1 <;> simp [h]

theorem flatMapL_length (f : α → List β) (L : ℕ) (as : List α)
    (h : ∀ a ∈ as, (f a).length = L) :
    (flatMapL f as).length = as.length * L := by
  induction as with
  | nil => simp [flatMapL]
  | cons a as ih =>
    simp only [flatMapL, List.length_append, List.length_cons]
    rw [h a (by simp), ih (fun b hb => h b (by simp [hb]))]
    ring

theorem mem_flatMapL {f : α → List β} {as : List α} {b : β} :
    b ∈ flatMapL f as ↔ ∃ a ∈ as, b ∈ f a := by
  induction as with
  | nil => simp [flatMapL]
  | cons a as ih => simp [flatMapL, ih]

theorem flatMapL_getD (f : α → List β) (L : ℕ) (as : List α) (a₀ : α) (d : β)
    (h : ∀ a ∈ as, (f a).length = L) (k j : ℕ)
    (hk : k < as.length) (hj : j < L) :
    (flatMapL f as).getD (k * L + j) d = (f (as.getD k a₀)).getD j d := by
  induction as generalizing k with
  | nil => simp at hk
  | cons a as ih =>
    cases k with
    | zero =>
      simp only [flatMapL, Nat.zero_mul, Nat.zero_add, List.getD,
        List.get?_cons_zero]
      rw [List.get?_append (by rw [h a (by simp)]; exact hj)]
      simp
    | succ k =>
      simp only [flatMapL, List.getD, List.get?_cons_succ]
      have harith : k * L + (L + j) = L + (k * L + j) := by ring
      rw [Nat.succ_mul, Nat.add_assoc, harith,
        List.get?_append_right (by rw [h a (by simp)]; omega),
        h a (by simp), Nat.add_sub_cancel_left]
      have := ih (fun b hb => h b (by simp [hb])) k (by simpa using hk)
      simpa [List.getD] using this

theorem chunkAt_map (g : ℚ → ℚ) (n k : ℕ) (c : Chan) :
    chunkAt n k (c.map g) = (chunkAt n k c).map g := by
  unfold chunkAt
  rw [List.length_map, List.map_take, List.map_drop]

theorem chunkAt_length (n k : ℕ) (c : Chan)
    (hd : c.length % n = 0) (hk : k < n) :
    (chunkAt n k c).length = c.length / n := by
  have h1 : n * (c.length / n) = c.length :=
    Nat.mul_div_cancel' (Nat.dvd_of_mod_eq_zero hd)
  have h2 : (k + 1) * (c.length / n) ≤ n * (c.length / n) :=
    Nat.mul_le_mul_right _ hk
  have h3 : k * (c.length / n) + c.length / n ≤ c.length := by
    rw [h1] at h2
    calc k * (c.length / n) + c.length / n
        = (k + 1) * (c.length / n) := by ring
      _ ≤ c.length := h2
  unfold chunkAt
  rw [List.length_take, List.length_drop]
  omega

theorem chunkAt_getD (n k j : ℕ) (c : Chan) (d : ℚ)
    (hd : c.length % n = 0) (hk : k < n) (hj : j < c.length / n) :
    (chunkAt n k c).getD j d = c.getD (k * (c.length / n) + j) d := by
  unfold chunkAt
  rw [List.getD, List.getD, List.get?_take hj, List.get?_drop]

theorem take_two_eq (l : List ℚ) (d : ℚ) (h : 2 ≤ l.length) :
    l.take 2 = [l.getD 0 d, l.getD 1 d] := by
  cases l with
  | nil => simp at h
  | cons a t =>
    cases t with
    | nil => simp at h
    | cons b r => simp [List.getD]

theorem drop_two_take_two (l : List ℚ) (d : ℚ) (h : 4 ≤ l.length) :
    (l.drop 2).take 2 = [l.getD 2 d, l.getD 3 d] := by
  cases l with
  | nil => simp at h
  | cons a t =>
    cases t with
    | nil => simp at h
    | cons b r =>
      cases r with
      | nil => simp at h
      | cons e u =>
        cases u with
        | nil => simp at h
        | cons f v => simp [List.getD]

theorem boxOf_eq (σ ε : ℚ → ℚ) (A : List (ℚ × ℚ)) (s : ℚ)
    (invImg invGrid coord : ℚ × ℚ) (i : ℕ) (c : Chan)
    (hi : i < 3) (hC : c.length % 3 = 0) (h4 : 4 ≤ c.length / 3) :
    boxOf σ ε A s invImg invGrid coord i c =
      [gcF s (σ (rawAt c i 0)) * invGrid.1 + coord.1,
       gcF s (σ (rawAt c i 1)) * invGrid.2 + coord.2,
       ε (rawAt c i 2) * (A.getD i (0, 0)).1 * invImg.1,
       ε (rawAt c i 3) * (A.getD i (0, 0)).2 * invImg.2] ++
      ((chunkAt 3 i c).drop 4).map σ := by
  have hlen : (chunkAt 3 i c).length = c.length / 3 := chunkAt_length 3 i c hC hi
  have htake : (chunkAt 3 i c).take 2 = [rawAt c i 0, rawAt c i 1] := by
    rw [take_two_eq _ 0 (by omega),
      chunkAt_getD 3 i 0 c 0 hC hi (by omega),
      chunkAt_getD 3 i 1 c 0 hC hi (by omega)]
    simp [rawAt]
  have hmid : ((chunkAt 3 i c).drop 2).take 2 = [rawAt c i 2, rawAt c i 3] := by
    rw [drop_two_take_two _ 0 (by omega),
      chunkAt_getD 3 i 2 c 0 hC hi (by omega),
      chunkAt_getD 3 i 3 c 0 hC hi (by omega)]
    simp [rawAt]
  simp only [boxOf]
  rw [chunkAt_map, ← List.map_take, ← List.map_drop, htake, hmid]
  simp [pairMul, pairAdd, gridCorrect_eq_map]

theorem imageWF_row {x : Image} {W C : ℕ} (h : imageWF x W C = true)
    {row : List Chan} (hr : row ∈ x) :
    row.length = W ∧ ∀ c ∈ row, c.length = C := by
  unfold imageWF at h
  rw [List.all_eq_true] at h
  have h1 := h row hr
  rw [Bool.and_eq_true, List.all_eq_true] at h1
  exact ⟨by simpa using h1.1, fun c hc => by simpa using h1.2 c hc⟩

theorem gridCoords_length (H W : ℕ) : (gridCoords H W).length = H := by
  simp [gridCoords]

theorem gridCoords_row_length {H W : ℕ} {row : List (ℚ × ℚ)}
    (hr : row ∈ gridCoords H W) : row.length = W := by
  unfold gridCoords at hr
  rw [List.mem_map] at hr
  obtain ⟨y, _, rfl⟩ := hr
  simp

theorem gridCoords_row {H W y : ℕ} (hy : y < H) :
    (gridCoords H W).getD y [] =
      (List.range W).map (fun w : ℕ => ((w : ℚ)/(W : ℚ), (y : ℚ)/(H : ℚ))) := by
  unfold gridCoords
  rw [List.getD_eq_getElem _ _ (by simpa using hy), List.getElem_map,
    List.getElem_range]

theorem gridCoords_mem {H W : ℕ} {p : ℚ × ℚ} {row : List (ℚ × ℚ)}
    (hrow : row ∈ gridCoords H W) (hp : p ∈ row) :
    ∃ y w : ℕ, y < H ∧ w < W ∧ p = ((w : ℚ)/(W : ℚ), (y : ℚ)/(H : ℚ)) := by
  unfold gridCoords at hrow
  rw [List.mem_map] at hrow
  obtain ⟨y, hy, rfl⟩ := hrow
  rw [List.mem_map] at hp
  obtain ⟨w, hw, rfl⟩ := hp
  exact ⟨y, w, by simpa using hy, by simpa using hw, rfl⟩

theorem headForward_eq_some (σ ε : ℚ → ℚ) (st : HeadState) (x : Image)
    (W C : ℕ)
    (hW : (x.headD []).length = W) (hC : ((x.headD []).headD []).length = C)
    (hwf : imageWF x W C = true) (h3 : C % 3 = 0) (h4 : 4 ≤ C / 3)
    (hA : 3 ≤ st.anchors.length) :
    headForward σ ε st x = some (flatMapL (fun i =>
      flatMapL (fun rc =>
        (List.zip rc.1 rc.2).map (fun cc =>
          boxOf σ ε st.anchors st.scaleXY st.invImageWH
            (1/(W : ℚ), 1/(x.length : ℚ)) cc.2 i cc.1))
        (List.zip x (gridCoords x.length W)))
      (List.range 3)) := by
  subst hW hC
  simp only [headForward, headBuild]
  rw [if_pos ⟨hwf, h3, h4, hA⟩]

theorem headBlock_length (σ ε : ℚ → ℚ) (st : HeadState) (x : Image)
    (W C : ℕ) (hwf : imageWF x W C = true) (i : ℕ) :
    (flatMapL (fun rc =>
      (List.zip rc.1 rc.2).map (fun cc =>
        boxOf σ ε st.anchors st.scaleXY st.invImageWH
          (1/(W : ℚ), 1/(x.length : ℚ)) cc.2 i cc.1))
      (List.zip x (gridCoords x.length W))).length = x.length * W := by
  rw [flatMapL_length _ W]
  · rw [List.length_zip, gridCoords_length, Nat.min_self]
  · intro rc hrc
    have hm := List.of_mem_zip hrc
    rw [List.length_map, List.length_zip,
      (imageWF_row hwf hm.1).1, gridCoords_row_length hm.2, Nat.min_self]

theorem headForward_length (σ ε : ℚ → ℚ) (st : HeadState) (x : Image)
    (W C : ℕ) (out : List Chan)
    (hW : (x.headD []).length = W) (hC : ((x.headD []).headD []).length = C)
    (hwf : imageWF x W C = true) (h3 : C % 3 = 0) (h4 : 4 ≤ C / 3)
    (hA : 3 ≤ st.anchors.length)
    (hout : headForward σ ε st x = some out) :
    out.length = 3 * (x.length * W) := by
  rw [headForward_eq_some σ ε st x W C hW hC hwf h3 h4 hA] at hout
  have h := Option.some.inj hout
  subst h
  rw [flatMapL_length _ (x.length * W) _
    (fun a _ => headBlock_length σ ε st x W C hwf a), List.length_range]

theorem headForward_mem (σ ε : ℚ → ℚ) (st : HeadState) (x : Image)
    (W C : ℕ) (out : List Chan)
    (hW : (x.headD []).length = W) (hC : ((x.headD []).headD []).length = C)
    (hwf : imageWF x W C = true) (h3 : C % 3 = 0) (h4 : 4 ≤ C / 3)
    (hA : 3 ≤ st.anchors.length)
    (hout : headForward σ ε st x = some out)
    (b : Chan) (hb : b ∈ out) :
    ∃ i y w : ℕ, ∃ c : Chan, i < 3 ∧ y < x.length ∧ w < W ∧ c.length = C ∧
      b = boxOf σ ε st.anchors st.scaleXY st.invImageWH
        (1/(W : ℚ), 1/(x.length : ℚ))
        ((w : ℚ)/(W : ℚ), (y : ℚ)/(x.length : ℚ)) i c := by
  rw [headForward_eq_some σ ε st x W C hW hC hwf h3 h4 hA] at hout
  have h := Option.some.inj hout
  subst h
  rw [mem_flatMapL] at hb
  obtain ⟨i, hi, hb⟩ := hb
  rw [mem_flatMapL] at hb
  obtain ⟨rc, hrc, hb⟩ := hb
  rw [List.mem_map] at hb
  obtain ⟨cc, hcc, rfl⟩ := hb
  have hm := List.of_mem_zip hrc
  have hmm := List.of_mem_zip hcc
  obtain ⟨y, w, hy, hw, hcoord⟩ := gridCoords_mem hm.2 hmm.2
  exact ⟨i, y, w, cc.1, by simpa using hi, hy, hw,
    (imageWF_row hwf hm.1).2 cc.1 hmm.1, by rw [hcoord]⟩

theorem headForward_out_getD (σ ε : ℚ → ℚ) (st : HeadState) (x : Image)
    (W C : ℕ) (out : List Chan)
    (hW : (x.headD []).length = W) (hC : ((x.headD []).headD []).length = C)
    (hwf : imageWF x W C = true) (h3 : C % 3 = 0) (h4 : 4 ≤ C / 3)
    (hA : 3 ≤ st.anchors.length)
    (hout : headForward σ ε st x = some out)
    (i y w : ℕ) (hi : i < 3) (hy : y < x.length) (hw : w < W) :
    out.getD (i * (x.length * W) + (y * W + w)) [] =
      boxOf σ ε st.anchors st.scaleXY st.invImageWH
        (1/(W : ℚ), 1/(x.length : ℚ))
        ((w : ℚ)/(W : ℚ), (y : ℚ)/(x.length : ℚ)) i (cellAt x y w) := by
  rw [headForward_eq_some σ ε st x W C hW hC hwf h3 h4 hA] at hout
  have h := Option.some.inj hout
  subst h
  have hzl : (List.zip x (gridCoords x.length W)).length = x.length := by
    rw [List.length_zip, gridCoords_length, Nat.min_self]
  have hj : y * W + w < x.length * W := by
    have h1 : (y + 1) * W ≤ x.length * W := Nat.mul_le_mul_right _ hy
    have h2 : (y + 1) * W = y * W + W := by ring
    omega
  rw [flatMapL_getD _ (x.length * W) _ 0 []
    (fun a _ => headBlock_length σ ε st x W C hwf a) i (y * W + w)
    (by simpa using hi) hj]
  have hri : (List.range 3).getD i 0 = i := by
    rw [List.getD_eq_getElem _ _ (by simpa using hi)]
    exact List.getElem_range i _
  rw [hri]
  rw [flatMapL_getD _ W _ ([], []) []
    (fun rc hrc => by
      have hm := List.of_mem_zip hrc
      rw [List.length_map, List.length_zip,
        (imageWF_row hwf hm.1).1, gridCoords_row_length hm.2, Nat.min_self])
    y w (by rw [hzl]; exact hy) hw]
  have hy2 : y < (gridCoords x.length W).length := by
    rw [gridCoords_length]; exact hy
  have hyz : y < (List.zip x (gridCoords x.length W)).length := by
    rw [hzl]; exact hy
  have hzip : (List.zip x (gridCoords x.length W)).getD y ([], []) =
      (x.getD y [], (gridCoords x.length W).getD y []) := by
    rw [List.getD_eq_getElem _ _ hyz, List.getD_eq_getElem _ _ hy,
      List.getD_eq_getElem _ _ hy2]
    exact List.getElem_zip
  rw [hzip]
  have hrowlen : (x.getD y []).length = W := by
    rw [List.getD_eq_getElem _ _ hy]
    exact (imageWF_row hwf (List.getElem_mem _)).1
  rw [gridCoords_row hy]
  have hwz : w < (List.zip (x.getD y [])
      ((List.range W).map (fun v : ℕ =>
        ((v : ℚ)/(W : ℚ), (y : ℚ)/(x.length : ℚ))))).length := by
    rw [List.length_zip, hrowlen, List.length_map, List.length_range,
      Nat.min_self]
    exact hw
  rw [List.getD_eq_getElem _ _ (by rw [List.length_map]; exact hwz),
    List.getElem_map, List.getElem_zip]
  simp only [List.getElem_map, List.getElem_range]
  congr 1
  unfold cellAt
  exact (List.getD_eq_getElem _ _ (by rw [hrowlen]; exact hw)).symm

theorem cellAt_length {x : Image} {W C : ℕ} (hwf : imageWF x W C = true)
    {y w : ℕ} (hy : y < x.length) (hw : w < W) :
    (cellAt x y w).length = C := by
  have hrow : x.getD y [] ∈ x := by
    rw [List.getD_eq_getElem _ _ hy]
    exact List.getElem_mem _
  have h1 := imageWF_row hwf hrow
  have hcell : (x.getD y []).getD w [] ∈ x.getD y [] := by
    rw [List.getD_eq_getElem (x.getD y []) []
      (show w < (x.getD y []).length by rw [h1.1]; exact hw)]
    exact List.getElem_mem _
  exact h1.2 _ hcell

theorem gcF_one (t : ℚ) : gcF 1 t = t := by
  simp [gcF]

theorem sigma_cell_bound (t : ℚ) (k n : ℕ) (hk : k < n)
    (h0 : 0 ≤ t) (h1 : t ≤ 1) :
    0 ≤ t * (1/(n : ℚ)) + (k : ℚ)/(n : ℚ) ∧
      t * (1/(n : ℚ)) + (k : ℚ)/(n : ℚ) ≤ 1 := by
  have hn : (0 : ℚ) < n := by
    have : 0 < n := by omega
    exact_mod_cast this
  constructor
  · have ha : (0 : ℚ) ≤ t * (1/(n : ℚ)) := by positivity
    have hb : (0 : ℚ) ≤ (k : ℚ)/(n : ℚ) := by positivity
    linarith
  · have h2 : t * (1/(n : ℚ)) ≤ 1/(n : ℚ) := by
      have hpos : (0 : ℚ) < 1/(n : ℚ) := by positivity
      nlinarith
    have h3 : (k : ℚ)/(n : ℚ) + 1/(n : ℚ) ≤ 1 := by
      rw [div_add_div_same, div_le_one hn]
      have hkc : (k : ℚ) + 1 ≤ (n : ℚ) := by exact_mod_cast hk
      linarith
    linarith

theorem boxOfForced_one (σ ε : ℚ → ℚ) (A : List (ℚ × ℚ))
    (invImg invGrid coord : ℚ × ℚ) (i : ℕ) (c : Chan) :
    boxOfForced σ ε A 1 invImg invGrid coord i c =
      boxOf σ ε A 1 invImg invGrid coord i c := by
  unfold boxOfForced boxOf gridCorrectForced gridCorrect
  simp

theorem flatten_chunks_aux (n : ℕ) (c : Chan) (j : ℕ) :
    ((List.range j).map (fun k => chunkAt n k c)).flatten =
      c.take (j * (c.length / n)) := by
  induction j with
  | zero => simp
  | succ j ih =>
    rw [List.range_succ, List.map_append, List.flatten_append, ih]
    have hs : (j + 1) * (c.length / n) = j * (c.length / n) + c.length / n := by
      ring
    rw [hs, List.take_add]
    simp [chunkAt]

theorem flatten_chunks (n : ℕ) (c : Chan) (hd : c.length % n = 0) :
    ((List.range n).map (fun k => chunkAt n k c)).flatten = c := by
  rw [flatten_chunks_aux, Nat.mul_comm, Nat.div_mul_cancel
    (Nat.dvd_of_mod_eq_zero hd), List.take_length]

theorem chunkN_length (rows m : ℕ) (l : List ℚ) :
    (chunkN rows m l).length = rows := by
  induction rows generalizing l with
  | zero => rfl
  | succ r ih => simp [chunkN, ih]

/-- C3: for every grid shape `(H, W)` with `H, W ≥ 1`, `YOLOv3Head.build`
produces exactly `H×W` coordinate pairs with `coord[y][x] = (x/W, y/H)`, no
duplicate pairs, and `invGridWH = (1/W, 1/H)`; it is a pure function of the
shape (a definitional fact of `gridCoords`/`headBuild`). -/
theorem grid_builder_correct (H W filters : ℕ) (hH : 1 ≤ H) (hW : 1 ≤ W) :
    (gridCoords H W).flatten.length = H * W ∧
    (∀ y, y < H → ∀ w, w < W →
      ((gridCoords H W).getD y []).getD w (0, 0) =
        ((w : ℚ)/(W : ℚ), (y : ℚ)/(H : ℚ))) ∧
    (gridCoords H W).flatten.Nodup ∧
    (headBuild H W filters).gridCoord = gridCoords H W ∧
    (headBuild H W filters).invGridWH = (1/(W : ℚ), 1/(H : ℚ)) := by
  refine ⟨?_, ?_, ?_, rfl, rfl⟩
  · rw [List.length_flatten]
    unfold gridCoords
    rw [List.map_map]
    have h : (List.length ∘ fun y : ℕ =>
        (List.range W).map (fun x : ℕ =>
          ((x : ℚ) / (W : ℚ), (y : ℚ) / (H : ℚ)))) = fun _ : ℕ => W := by
      funext y
      simp
    rw [h, List.map_const', List.sum_replicate, List.length_range,
      smul_eq_mul, Nat.mul_comm]
  · intro y hy w hw
    rw [gridCoords_row hy,
      List.getD_eq_getElem _ _ (by simpa using hw), List.getElem_map,
      List.getElem_range]
  · rw [List.nodup_flatten]
    constructor
    · intro s hs
      unfold gridCoords at hs
      rw [List.mem_map] at hs
      obtain ⟨y, hy, rfl⟩ := hs
      refine List.Nodup.map ?_ (List.nodup_range W)
      intro a b hab
      have h1 : (a : ℚ) / W = (b : ℚ) / W := congrArg Prod.fst hab
      have hWq : (W : ℚ) ≠ 0 := by positivity
      have h2 : (a : ℚ) = b := by
        field_simp at h1
        exact_mod_cast h1
      exact_mod_cast h2
    · unfold gridCoords
      rw [List.pairwise_map]
      refine List.Pairwise.imp ?_ (List.pairwise_lt_range H)
      intro y1 y2 hlt p hp1 hp2
      rw [List.mem_map] at hp1 hp2
      obtain ⟨a, _, rfl⟩ := hp1
      obtain ⟨b, _, heq⟩ := hp2
      have h2 : (y1 : ℚ) / H = (y2 : ℚ) / H := by
        have h3 := congrArg Prod.snd heq
        simpa using h3.symm
      have hHq : (H : ℚ) ≠ 0 := by positivity
      have h4 : (y1 : ℚ) = y2 := by
        field_simp at h2
        exact_mod_cast h2
      have h5 : y1 = y2 := by exact_mod_cast h4
      omega

/-- Witness for C3 at the concrete shape `H = 2`, `W = 3`, `filters = 255`. -/
theorem grid_builder_correct_witness :
    (gridCoords 2 3).flatten.length = 2 * 3 ∧
    (∀ y, y < 2 → ∀ w, w < 3 →
      ((gridCoords 2 3).getD y []).getD w (0, 0) =
        ((w : ℚ)/((3 : ℕ) : ℚ), (y : ℚ)/((2 : ℕ) : ℚ))) ∧
    (gridCoords 2 3).flatten.Nodup ∧
    (headBuild 2 3 255).gridCoord = gridCoords 2 3 ∧
    (headBuild 2 3 255).invGridWH = (1/((3 : ℕ) : ℚ), 1/((2 : ℕ) : ℚ)) :=
  grid_builder_correct 2 3 255 (by decide) (by decide)

/-- C4: with `scale_x_y = 1`, the decode that skips the grid-sensitivity
branch equals, as a function of the raw input, the decode with the branch
forcibly evaluated as `(xy - 0.5) * 1.0 + 0.5`. -/
theorem scale_one_skip_eq_forced (σ ε : ℚ → ℚ) (st : HeadState)
    (h1 : st.scaleXY = 1) (x : Image) :
    headForwardForced σ ε st x = headForward σ ε st x := by
  obtain ⟨A, s, inv⟩ := st
  simp only at h1
  subst h1
  unfold headForwardForced headForward
  simp only [boxOfForced_one]

/-- Witness for C4: the equality at `stdHead` (whose `scale_x_y` is 1) on a
concrete `1×1×12` input, with identity stand-ins for the activations. -/
theorem scale_one_skip_eq_forced_witness :
    headForwardForced id id stdHead (zeroImage 1 1 12) =
      headForward id id stdHead (zeroImage 1 1 12) :=
  scale_one_skip_eq_forced id id stdHead rfl (zeroImage 1 1 12)

/-- C9: a `route` descriptor with a `groups` entry consumes only the first
entry of its `layers` list: the executed computation is
`_split_and_get(groups, group_id)(output[layers[0]])`, and replacing the tail
of `layers` by anything else leaves the result unchanged. -/
theorem route_groups_first_layer_only (g gid : ℕ) (i : ℤ)
    (rest rest2 : List ℤ) (output : List Image) :
    routeStep ⟨some (g, gid), i :: rest⟩ output =
      (pyGet output i).bind (imageSplitAndGet g gid) ∧
    routeStep ⟨some (g, gid), i :: rest⟩ output =
      routeStep ⟨some (g, gid), i :: rest2⟩ output :=
  ⟨rfl, rfl⟩

/-- C7: `_split_and_get` on a channel vector of depth divisible by `groups`:
the split yields `groups` partitions of `C/groups` channels each, the
partitions flatten back to the whole vector (each channel covered exactly
once, in order), and selecting `group_id` returns exactly the direct slice
`[group_id * C/groups : (group_id+1) * C/groups]`.  `tf.split(axis=-1)` acts
identically and independently at every spatial position, so the channel
vector is the unit of interest. -/
theorem route_groups_split_slice (groups gid : ℕ) (c : Chan)
    (hg : 0 < groups) (hd : c.length % groups = 0) (hid : gid < groups) :
    ∃ parts : List Chan,
      tfSplit groups c = some parts ∧
      parts.length = groups ∧
      (∀ p ∈ parts, p.length = c.length / groups) ∧
      parts.flatten = c ∧
      splitAndGet groups gid c =
        some ((c.drop (gid * (c.length / groups))).take (c.length / groups)) := by
  have hsplit : tfSplit groups c =
      some ((List.range groups).map (fun k => chunkAt groups k c)) := by
    unfold tfSplit
    rw [if_pos ⟨hg, hd⟩]
  refine ⟨_, hsplit, by simp, ?_, flatten_chunks groups c hd, ?_⟩
  · intro p hp
    rw [List.mem_map] at hp
    obtain ⟨k, hk, rfl⟩ := hp
    exact chunkAt_length groups k c hd (by simpa using hk)
  · unfold splitAndGet
    rw [hsplit, Option.some_bind]
    rw [List.getElem?_eq_getElem (by simpa using hid), List.getElem_map,
      List.getElem_range]
    rfl

/-- Witness for C7: a depth-6 channel vector split into two groups, selecting
group 1. -/
theorem route_groups_split_slice_witness :
    ∃ parts : List Chan,
      tfSplit 2 [1, 2, 3, 4, 5, 6] = some parts ∧
      parts.length = 2 ∧
      (∀ p ∈ parts, p.length = List.length [(1 : ℚ), 2, 3, 4, 5, 6] / 2) ∧
      parts.flatten = [1, 2, 3, 4, 5, 6] ∧
      splitAndGet 2 1 [1, 2, 3, 4, 5, 6] =
        some ((List.drop (1 * (List.length [(1 : ℚ), 2, 3, 4, 5, 6] / 2))
          [(1 : ℚ), 2, 3, 4, 5, 6]).take
            (List.length [(1 : ℚ), 2, 3, 4, 5, 6] / 2)) :=
  route_groups_split_slice 2 1 [1, 2, 3, 4, 5, 6]
    (by decide) (by decide) (by decide)

set_option maxRecDepth 100000 in
/-- C10: the tflite `predict` reshape always computes the per-scale candidate
count as `shape[1]² × 3` (the first spatial dimension squared), which matches
the true `H × W × 3` count only for square grids; a non-square `2×3×255`
output is rejected by the reshape and a non-square `2×4×3` output is
mis-reshaped into 12 rows instead of the true 24 boxes. -/
theorem tflite_square_reshape (t : Image) (out : List Chan)
    (hout : tflitePerScale t = some out) :
    out.length = t.length * t.length * 3 ∧
    tflitePerScale (zeroImage 2 3 255) = none ∧
    tflitePerScale (zeroImage 2 4 3) =
      some (chunkN 12 2 (flattenImage (zeroImage 2 4 3))) ∧
    (chunkN 12 2 (flattenImage (zeroImage 2 4 3))).length = 12 ∧
    (12 : ℕ) ≠ 2 * 4 * 3 := by
  refine ⟨?_, by decide, by decide, by decide, by decide⟩
  unfold tflitePerScale npReshapeRows at hout
  by_cases hc : 0 < t.length * t.length * 3 ∧
      (flattenImage t).length % (t.length * t.length * 3) = 0
  · rw [if_pos hc] at hout
    have h := Option.some.inj hout
    rw [← h, chunkN_length]
  · rw [if_neg hc] at hout
    exact absurd hout (by simp)

set_option maxRecDepth 100000 in
/-- Witness for C10: a square `1×1×3` output reshapes to `1² × 3 = 3`
candidate rows. -/
theorem tflite_square_reshape_witness :
    (chunkN 3 1 (flattenImage (zeroImage 1 1 3))).length =
      (zeroImage 1 1 3).length * (zeroImage 1 1 3).length * 3 ∧
    tflitePerScale (zeroImage 2 3 255) = none ∧
    tflitePerScale (zeroImage 2 4 3) =
      some (chunkN 12 2 (flattenImage (zeroImage 2 4 3))) ∧
    (chunkN 12 2 (flattenImage (zeroImage 2 4 3))).length = 12 ∧
    (12 : ℕ) ≠ 2 * 4 * 3 :=
  tflite_square_reshape (zeroImage 1 1 3)
    (chunkN 3 1 (flattenImage (zeroImage 1 1 3))) (by decide)

/-- C8: aggregation concatenates the per-scale decoded outputs along the
box-index axis in declared head order with no numeric transform (the result
is literally `o1 ++ o2 ++ o3`), and the standard 507 + 2028 + 8112 boxes
aggregate to exactly 10647 candidates; the tflite `predict`
reshape-then-concatenate realizes this ordering. -/
theorem aggregate_heads_order (t1 t2 t3 : Image) (o1 o2 o3 : List Chan)
    (h1 : tflitePerScale t1 = some o1) (h2 : tflitePerScale t2 = some o2)
    (h3 : tflitePerScale t3 = some o3)
    (l1 : o1.length = 507) (l2 : o2.length = 2028) (l3 : o3.length = 8112) :
    tflitePredictCat [t1, t2, t3] = some (o1 ++ o2 ++ o3) ∧
    (o1 ++ o2 ++ o3).length = 10647 := by
  constructor
  · have hm : List.mapM tflitePerScale [t1, t2, t3] = some [o1, o2, o3] := by
      rw [List.mapM_cons, List.mapM_cons, List.mapM_cons, List.mapM_nil,
        h1, h2, h3]
      rfl
    unfold tflitePredictCat
    rw [hm]
    simp [flatMapL, List.append_assoc]
  · simp [l1, l2, l3]

theorem flattenImage_zero_length (H W C : ℕ) :
    (flattenImage (zeroImage H W C)).length = H * W * C := by
  unfold flattenImage zeroImage
  rw [flatMapL_length id C, flatMapL_length id W]
  · rw [List.length_replicate]
  · intro row hrow
    rw [List.eq_of_mem_replicate hrow]
    simp
  · intro cell hcell
    rw [mem_flatMapL] at hcell
    obtain ⟨row, hrow, hcell⟩ := hcell
    rw [List.eq_of_mem_replicate hrow] at hcell
    rw [List.eq_of_mem_replicate (show cell ∈ List.replicate W
      (List.replicate C (0 : ℚ)) from hcell)]
    simp

theorem tflitePerScale_zero (g : ℕ) (hg : 0 < g) :
    tflitePerScale (zeroImage g g 3) =
      some (chunkN (g * g * 3) 1 (flattenImage (zeroImage g g 3))) := by
  have hglen : (zeroImage g g 3).length = g := by simp [zeroImage]
  have hlen : (flattenImage (zeroImage g g 3)).length = g * g * 3 :=
    flattenImage_zero_length g g 3
  have hpos : 0 < g * g * 3 := Nat.mul_pos (Nat.mul_pos hg hg) (by omega)
  unfold tflitePerScale npReshapeRows
  rw [hglen, hlen, if_pos ⟨hpos, Nat.mod_self _⟩, Nat.div_self hpos]

/-- Witness for C8: concrete square 13/26/52 grids with 3 channels per
position, whose per-scale reshapes have 507, 2028 and 8112 rows. -/
theorem aggregate_heads_order_witness :
    tflitePredictCat [zeroImage 13 13 3, zeroImage 26 26 3, zeroImage 52 52 3] =
      some (chunkN 507 1 (flattenImage (zeroImage 13 13 3)) ++
        chunkN 2028 1 (flattenImage (zeroImage 26 26 3)) ++
        chunkN 8112 1 (flattenImage (zeroImage 52 52 3))) ∧
    (chunkN 507 1 (flattenImage (zeroImage 13 13 3)) ++
      chunkN 2028 1 (flattenImage (zeroImage 26 26 3)) ++
      chunkN 8112 1 (flattenImage (zeroImage 52 52 3))).length = 10647 :=
  aggregate_heads_order _ _ _ _ _ _
    (tflitePerScale_zero 13 (by omega)) (tflitePerScale_zero 26 (by omega))
    (tflitePerScale_zero 52 (by omega))
    (chunkN_length 507 1 _) (chunkN_length 2028 1 _) (chunkN_length 8112 1 _)

/-- C6 counterexample: a head whose mask selects only 2 anchors constructs
successfully (`__init__` performs no anchor-count validation), and the
failure first appears at the forward call, where `self._anchors[2]` indexing
runs out of range — contradicting "fails fast at construction time and never
first fails at inference time". -/
theorem head_misconfig_counterexample :
    headInit [(10, 13), (16, 30), (33, 23)] [0, 1] 416 416 1 =
      some ⟨[(10, 13), (16, 30)], 1, (1/416, 1/416)⟩ ∧
    headForward id id ⟨[(10, 13), (16, 30)], 1, (1/416, 1/416)⟩
      (zeroImage 1 1 12) = none := by
  constructor
  · rfl
  · decide

/-- C6 amended: a head whose mask selects fewer than 3 anchors, or whose
input channel count is not divisible by 3, constructs successfully and first
fails at the forward call (anchor indexing / `tf.split`), not at
construction. -/
theorem head_misconfig_first_fails_at_call (σ ε : ℚ → ℚ)
    (table : List (ℚ × ℚ)) (mask : List ℕ) (w h s : ℚ) (x : Image)
    (hmask : ∀ m ∈ mask, m < table.length)
    (hbad : mask.length < 3 ∨ ((x.headD []).headD []).length % 3 ≠ 0) :
    ∃ st, headInit table mask w h s = some st ∧
      headForward σ ε st x = none := by
  refine ⟨⟨mask.map (fun m => table.getD m (0, 0)), s, (1/w, 1/h)⟩, ?_, ?_⟩
  · unfold headInit
    rw [if_pos]
    rw [List.all_eq_true]
    intro m hm
    simpa using hmask m hm
  · unfold headForward
    rw [if_neg]
    intro hcon
    obtain ⟨hwf, h3, h4, hA⟩ := hcon
    rcases hbad with hb | hb
    · rw [List.length_map] at hA
      omega
    · exact hb h3

/-- Witness for the amended C6 at a concrete 2-anchor mask. -/
theorem head_misconfig_first_fails_at_call_witness :
    ∃ st, headInit [(10, 13), (16, 30), (33, 23)] [0, 1] 416 416 1 = some st ∧
      headForward id id st (zeroImage 1 1 12) = none :=
  head_misconfig_first_fails_at_call id id [(10, 13), (16, 30), (33, 23)]
    [0, 1] 416 416 1 (zeroImage 1 1 12) (by decide) (Or.inl (by decide))

/-- C5: with `scale_x_y = 1` and a sigmoid bounded in `[0, 1]`, every decoded
x and y coordinate lies in `[0, 1]`: each is a sigmoid output scaled by the
inverse grid dimension plus a grid coordinate, so `x ≤ (cellX + 1)/W ≤ 1`
and likewise for y. -/
theorem decoded_xy_in_unit_interval (σ ε : ℚ → ℚ) (st : HeadState) (x : Image)
    (W C : ℕ) (out : List Chan)
    (hW : (x.headD []).length = W) (hC : ((x.headD []).headD []).length = C)
    (hwf : imageWF x W C = true) (h3 : C % 3 = 0) (h4 : 4 ≤ C / 3)
    (hA : 3 ≤ st.anchors.length) (hs : st.scaleXY = 1)
    (hσ : ∀ t, 0 ≤ σ t ∧ σ t ≤ 1)
    (hout : headForward σ ε st x = some out) :
    ∀ b ∈ out, (0 ≤ b.getD 0 0 ∧ b.getD 0 0 ≤ 1) ∧
      (0 ≤ b.getD 1 0 ∧ b.getD 1 0 ≤ 1) := by
  intro b hb
  obtain ⟨i, y, w, c, hi, hy, hw, hclen, rfl⟩ :=
    headForward_mem σ ε st x W C out hW hC hwf h3 h4 hA hout b hb
  rw [boxOf_eq σ ε st.anchors st.scaleXY st.invImageWH _ _ i c hi
    (by rw [hclen]; exact h3) (by rw [hclen]; exact h4)]
  simp only [List.cons_append, List.getD_cons_zero, List.getD_cons_succ]
  rw [hs]
  simp only [gcF_one]
  exact ⟨sigma_cell_bound (σ (rawAt c i 0)) w W hw (hσ _).1 (hσ _).2,
    sigma_cell_bound (σ (rawAt c i 1)) y x.length hy (hσ _).1 (hσ _).2⟩

/-- Witness for C5: the first decoded box of a concrete `1×1×12` input with a
constant-1/2 bounded activation has its x and y in `[0, 1]`. -/
theorem decoded_xy_in_unit_interval_witness :
    (0 ≤ (((headForward halfSig id stdHead
        (zeroImage 1 1 12)).getD []).getD 0 []).getD 0 0 ∧
      (((headForward halfSig id stdHead
        (zeroImage 1 1 12)).getD []).getD 0 []).getD 0 0 ≤ 1) ∧
    (0 ≤ (((headForward halfSig id stdHead
        (zeroImage 1 1 12)).getD []).getD 0 []).getD 1 0 ∧
      (((headForward halfSig id stdHead
        (zeroImage 1 1 12)).getD []).getD 0 []).getD 1 0 ≤ 1) := by
  have hout : headForward halfSig id stdHead (zeroImage 1 1 12) =
      some ((headForward halfSig id stdHead (zeroImage 1 1 12)).getD []) := rfl
  have hlen := headForward_length halfSig id stdHead (zeroImage 1 1 12) 1 12 _
    rfl rfl (by decide) (by decide) (by decide) (by decide) hout
  have hmem : ((headForward halfSig id stdHead
      (zeroImage 1 1 12)).getD []).getD 0 [] ∈
      (headForward halfSig id stdHead (zeroImage 1 1 12)).getD [] := by
    rw [List.getD_eq_getElem _ _ (by rw [hlen]; norm_num [zeroImage])]
    exact List.getElem_mem _
  exact decoded_xy_in_unit_interval halfSig id stdHead (zeroImage 1 1 12) 1 12
    ((headForward halfSig id stdHead (zeroImage 1 1 12)).getD [])
    rfl rfl (by decide) (by decide) (by decide) (by decide) rfl
    (fun t => ⟨by norm_num [halfSig], by norm_num [halfSig]⟩) rfl _ hmem

/-- C2: every decoded box of `YOLOv3Head` satisfies
`xy = sigmoid(rawXY) × invGridWH + gridCoord[cellY][cellX]` (after the
optional `scale_x_y` step, here `gcF`) and
`wh = exp(rawWH) × anchor[i] × invImageWH`; in particular a `(1, 2, 2, 255)`
raw tensor with the standard anchors, `scale_x_y = 1` and image size 416×416
decodes to a `(1, 12, 85)` tensor whose box at grid cell `(0, 0)`, anchor 0
has `x, y ∈ [0, 0.5]` and `w, h = exp(rawW)·10/416, exp(rawH)·13/416`. -/
theorem decode_formula (σ ε : ℚ → ℚ) (st : HeadState) (x : Image)
    (W C : ℕ) (out : List Chan)
    (hW : (x.headD []).length = W) (hC : ((x.headD []).headD []).length = C)
    (hwf : imageWF x W C = true) (h3 : C % 3 = 0) (h4 : 4 ≤ C / 3)
    (hA : 3 ≤ st.anchors.length)
    (hσ : ∀ t, 0 ≤ σ t ∧ σ t ≤ 1)
    (hout : headForward σ ε st x = some out) :
    (∀ i y w, i < 3 → y < x.length → w < W →
      ((out.getD (i * (x.length * W) + (y * W + w)) []).getD 0 0 =
          gcF st.scaleXY (σ (rawAt (cellAt x y w) i 0)) * (1/(W : ℚ)) +
            (w : ℚ)/(W : ℚ) ∧
        (out.getD (i * (x.length * W) + (y * W + w)) []).getD 1 0 =
          gcF st.scaleXY (σ (rawAt (cellAt x y w) i 1)) * (1/(x.length : ℚ)) +
            (y : ℚ)/(x.length : ℚ) ∧
        (out.getD (i * (x.length * W) + (y * W + w)) []).getD 2 0 =
          ε (rawAt (cellAt x y w) i 2) * (st.anchors.getD i (0, 0)).1 *
            st.invImageWH.1 ∧
        (out.getD (i * (x.length * W) + (y * W + w)) []).getD 3 0 =
          ε (rawAt (cellAt x y w) i 3) * (st.anchors.getD i (0, 0)).2 *
            st.invImageWH.2)) ∧
    (x.length = 2 → W = 2 → C = 255 → st = stdHead →
      headForwardB σ ε st [x] = some [out] ∧
      out.length = 12 ∧
      (∀ b ∈ out, b.length = 85) ∧
      (0 ≤ (out.getD 0 []).getD 0 0 ∧ (out.getD 0 []).getD 0 0 ≤ 1/2) ∧
      (0 ≤ (out.getD 0 []).getD 1 0 ∧ (out.getD 0 []).getD 1 0 ≤ 1/2) ∧
      (out.getD 0 []).getD 2 0 = ε (rawAt (cellAt x 0 0) 0 2) * 10 / 416 ∧
      (out.getD 0 []).getD 3 0 = ε (rawAt (cellAt x 0 0) 0 3) * 13 / 416) := by
  have hmain : ∀ i y w, i < 3 → y < x.length → w < W →
      ((out.getD (i * (x.length * W) + (y * W + w)) []).getD 0 0 =
          gcF st.scaleXY (σ (rawAt (cellAt x y w) i 0)) * (1/(W : ℚ)) +
            (w : ℚ)/(W : ℚ) ∧
        (out.getD (i * (x.length * W) + (y * W + w)) []).getD 1 0 =
          gcF st.scaleXY (σ (rawAt (cellAt x y w) i 1)) * (1/(x.length : ℚ)) +
            (y : ℚ)/(x.length : ℚ) ∧
        (out.getD (i * (x.length * W) + (y * W + w)) []).getD 2 0 =
          ε (rawAt (cellAt x y w) i 2) * (st.anchors.getD i (0, 0)).1 *
            st.invImageWH.1 ∧
        (out.getD (i * (x.length * W) + (y * W + w)) []).getD 3 0 =
          ε (rawAt (cellAt x y w) i 3) * (st.anchors.getD i (0, 0)).2 *
            st.invImageWH.2) := by
    intro i y w hi hy hw
    rw [headForward_out_getD σ ε st x W C out hW hC hwf h3 h4 hA hout
      i y w hi hy hw]
    rw [boxOf_eq σ ε st.anchors st.scaleXY st.invImageWH _ _ i (cellAt x y w)
      hi (by rw [cellAt_length hwf hy hw]; exact h3)
      (by rw [cellAt_length hwf hy hw]; exact h4)]
    refine ⟨?_, ?_, ?_, ?_⟩ <;>
      simp [List.getD_cons_zero, List.getD_cons_succ, List.cons_append]
  refine ⟨hmain, ?_⟩
  intro hx2 hW2 hC2 hstd
  subst hW2
  subst hC2
  subst hstd
  have hb0 := hmain 0 0 0 (by norm_num) (by omega) (by norm_num)
  rw [hx2] at hb0
  rw [show 0 * (2 * 2) + (0 * 2 + 0) = 0 from by norm_num] at hb0
  obtain ⟨hb00, hb01, hb02, hb03⟩ := hb0
  refine ⟨?_, ?_, ?_, ?_, ?_, ?_, ?_⟩
  · unfold headForwardB
    rw [List.mapM_cons, List.mapM_nil, hout]
    rfl
  · rw [headForward_length σ ε stdHead x 2 255 out hW hC hwf h3 h4 hA hout,
      hx2]
  · intro b hb
    obtain ⟨i, y, w, c, hi, hy, hw, hclen, rfl⟩ :=
      headForward_mem σ ε stdHead x 2 255 out hW hC hwf h3 h4 hA hout b hb
    rw [boxOf_eq σ ε stdHead.anchors stdHead.scaleXY stdHead.invImageWH _ _
      i c hi (by rw [hclen]) (by rw [hclen]; exact h4)]
    rw [List.length_append, List.length_map, List.length_drop,
      chunkAt_length 3 i c (by rw [hclen]) hi, hclen]
    norm_num
  · rw [hb00]
    have hch := (hσ (rawAt (cellAt x 0 0) 0 0)).1
    have hch2 := (hσ (rawAt (cellAt x 0 0) 0 0)).2
    rw [show gcF stdHead.scaleXY (σ (rawAt (cellAt x 0 0) 0 0)) =
      σ (rawAt (cellAt x 0 0) 0 0) from gcF_one _]
    push_cast
    constructor <;> nlinarith
  · rw [hb01]
    have hch := (hσ (rawAt (cellAt x 0 0) 0 1)).1
    have hch2 := (hσ (rawAt (cellAt x 0 0) 0 1)).2
    rw [show gcF stdHead.scaleXY (σ (rawAt (cellAt x 0 0) 0 1)) =
      σ (rawAt (cellAt x 0 0) 0 1) from gcF_one _]
    push_cast
    constructor <;> nlinarith
  · rw [hb02]
    show ε (rawAt (cellAt x 0 0) 0 2) * (10 : ℚ) * (1/416) = _
    ring
  · rw [hb03]
    show ε (rawAt (cellAt x 0 0) 0 3) * (13 : ℚ) * (1/416) = _
    ring

set_option maxRecDepth 400000 in
/-- Witness for C2 at the concrete `2×2×255` zero tensor with the standard
head, constant-1/2 sigmoid stand-in and identity exp stand-in. -/
theorem decode_formula_witness :
    (∀ i y w, i < 3 → y < c2Input.length → w < 2 →
      ((c2Out.getD (i * (c2Input.length * 2) + (y * 2 + w)) []).getD 0 0 =
          gcF stdHead.scaleXY (halfSig (rawAt (cellAt c2Input y w) i 0)) *
            (1/((2 : ℕ) : ℚ)) + (w : ℚ)/((2 : ℕ) : ℚ) ∧
        (c2Out.getD (i * (c2Input.length * 2) + (y * 2 + w)) []).getD 1 0 =
          gcF stdHead.scaleXY (halfSig (rawAt (cellAt c2Input y w) i 1)) *
            (1/(c2Input.length : ℚ)) + (y : ℚ)/(c2Input.length : ℚ) ∧
        (c2Out.getD (i * (c2Input.length * 2) + (y * 2 + w)) []).getD 2 0 =
          id (rawAt (cellAt c2Input y w) i 2) * (stdHead.anchors.getD i (0, 0)).1 *
            stdHead.invImageWH.1 ∧
        (c2Out.getD (i * (c2Input.length * 2) + (y * 2 + w)) []).getD 3 0 =
          id (rawAt (cellAt c2Input y w) i 3) * (stdHead.anchors.getD i (0, 0)).2 *
            stdHead.invImageWH.2)) ∧
    (c2Input.length = 2 → (2 : ℕ) = 2 → (255 : ℕ) = 255 → stdHead = stdHead →
      headForwardB halfSig id stdHead [c2Input] = some [c2Out] ∧
      c2Out.length = 12 ∧
      (∀ b ∈ c2Out, b.length = 85) ∧
      (0 ≤ (c2Out.getD 0 []).getD 0 0 ∧ (c2Out.getD 0 []).getD 0 0 ≤ 1/2) ∧
      (0 ≤ (c2Out.getD 0 []).getD 1 0 ∧ (c2Out.getD 0 []).getD 1 0 ≤ 1/2) ∧
      (c2Out.getD 0 []).getD 2 0 = id (rawAt (cellAt c2Input 0 0) 0 2) * 10 / 416 ∧
      (c2Out.getD 0 []).getD 3 0 = id (rawAt (cellAt c2Input 0 0) 0 3) * 13 / 416) :=
  decode_formula halfSig id stdHead c2Input 2 255 c2Out rfl rfl
    (by decide) (by decide) (by decide) (by decide)
    (fun t => ⟨by norm_num [halfSig], by norm_num [halfSig]⟩) rfl

set_option maxRecDepth 400000 in
/-- C1: in `YOLOv3Head.call` sigmoid is applied to the whole raw tensor and
two parallel splits feed the output: x/y and objectness/class scores come
from the sigmoid-activated split while width/height come from the unactivated
raw split with `exp` applied — every decoded box literally has the form
`[σ-based xy, ε-of-raw wh, σ-based oc]`; and the decode differs from the
conflated single-split variant that activates after splitting (which would
compute `exp(sigmoid(rawWH))`), given that `sigmoid 0 ≠ 0` and `exp` is
injective. -/
theorem dual_split_decode (σ ε : ℚ → ℚ) (st : HeadState) (x : Image)
    (W C : ℕ) (out : List Chan)
    (hW : (x.headD []).length = W) (hC : ((x.headD []).headD []).length = C)
    (hwf : imageWF x W C = true) (h3 : C % 3 = 0) (h4 : 4 ≤ C / 3)
    (hA : 3 ≤ st.anchors.length)
    (hout : headForward σ ε st x = some out)
    (hσ0 : σ 0 ≠ 0) (hε : Function.Injective ε) :
    (∀ b ∈ out, ∃ i y w : ℕ, ∃ c : Chan, i < 3 ∧ y < x.length ∧ w < W ∧
      c.length = C ∧
      b = [gcF st.scaleXY (σ (rawAt c i 0)) * (1/(W : ℚ)) + (w : ℚ)/(W : ℚ),
           gcF st.scaleXY (σ (rawAt c i 1)) * (1/(x.length : ℚ)) +
             (y : ℚ)/(x.length : ℚ),
           ε (rawAt c i 2) * (st.anchors.getD i (0, 0)).1 * st.invImageWH.1,
           ε (rawAt c i 3) * (st.anchors.getD i (0, 0)).2 * st.invImageWH.2] ++
          ((chunkAt 3 i c).drop 4).map σ) ∧
    headForward σ ε stdHead (zeroImage 1 1 12) ≠
      headForwardSingleSplit σ ε stdHead (zeroImage 1 1 12) := by
  constructor
  · intro b hb
    obtain ⟨i, y, w, c, hi, hy, hw, hclen, rfl⟩ :=
      headForward_mem σ ε st x W C out hW hC hwf h3 h4 hA hout b hb
    refine ⟨i, y, w, c, hi, hy, hw, hclen, ?_⟩
    rw [boxOf_eq σ ε st.anchors st.scaleXY st.invImageWH _ _ i c hi
      (by rw [hclen]; exact h3) (by rw [hclen]; exact h4)]
  · intro h
    have e1 : (((headForward σ ε stdHead
        (zeroImage 1 1 12)).getD []).getD 0 []).getD 2 0 =
        ε 0 * 10 * (1/416 : ℚ) := by
      simp +decide [headForward, boxOf, zeroImage, chunkAt, pairMul, pairAdd,
        gridCorrect, flatMapL, gridCoords, headBuild, stdHead, imageWF,
        List.range_succ, List.zip_cons_cons]
    have e2 : (((headForwardSingleSplit σ ε stdHead
        (zeroImage 1 1 12)).getD []).getD 0 []).getD 2 0 =
        ε (σ 0) * 10 * (1/416 : ℚ) := by
      simp +decide [headForwardSingleSplit, boxOfSingleSplit, zeroImage,
        chunkAt, pairMul, pairAdd, gridCorrect, flatMapL, gridCoords,
        headBuild, stdHead, imageWF, List.range_succ, List.zip_cons_cons]
    rw [h] at e1
    have h5 := e2.symm.trans e1
    have h6 : ε (σ 0) * 10 = ε 0 * 10 :=
      mul_right_cancel₀ (by norm_num) h5
    have h7 : ε (σ 0) = ε 0 := mul_right_cancel₀ (by norm_num) h6
    exact hσ0 (hε h7)

/-- Witness for C1 at a concrete `1×1×12` zero tensor with the constant-1/2
sigmoid stand-in (nonzero at 0) and the injective identity exp stand-in. -/
theorem dual_split_decode_witness :
    (∀ b ∈ (headForward halfSig id stdHead (zeroImage 1 1 12)).getD [],
      ∃ i y w : ℕ, ∃ c : Chan, i < 3 ∧ y < (zeroImage 1 1 12).length ∧
      w < 1 ∧ c.length = 12 ∧
      b = [gcF stdHead.scaleXY (halfSig (rawAt c i 0)) * (1/((1 : ℕ) : ℚ)) +
             (w : ℚ)/((1 : ℕ) : ℚ),
           gcF stdHead.scaleXY (halfSig (rawAt c i 1)) *
             (1/((zeroImage 1 1 12).length : ℚ)) +
             (y : ℚ)/((zeroImage 1 1 12).length : ℚ),
           id (rawAt c i 2) * (stdHead.anchors.getD i (0, 0)).1 *
             stdHead.invImageWH.1,
           id (rawAt c i 3) * (stdHead.anchors.getD i (0, 0)).2 *
             stdHead.invImageWH.2] ++
          ((chunkAt 3 i c).drop 4).map halfSig) ∧
    headForward halfSig id stdHead (zeroImage 1 1 12) ≠
      headForwardSingleSplit halfSig id stdHead (zeroImage 1 1 12) :=
  dual_split_decode halfSig id stdHead (zeroImage 1 1 12) 1 12
    ((headForward halfSig id stdHead (zeroImage 1 1 12)).getD [])
    rfl rfl (by decide) (by decide) (by decide) (by decide) rfl
    (by norm_num [halfSig]) Function.injective_id
